import Mathlib

/-!
# Verification of the qBittorrent IP-filter parser core

Shallow embedding of `src/base/bittorrent/private/filterparserthread.cpp`:
the address codec (`parseIPAddress`), the three block-list file parsers
(eMule DAT, PeerGuardian P2P text, PeerGuardian P2B binary), and the
orchestrating `run` dispatch with its cooperative cancellation flag.

Strings are modelled as their character lists (all helpers are structural
recursions so that every definition evaluates inside the kernel); the
String-facing wrappers used in the theorems convert with `String.toList`.
Text files are modelled as their list of lines (the source reads the file
line by line in text mode and immediately trims each line, so line
terminators never matter); binary files as their list of bytes, each a
`Nat` below 256.  The byte-stream reader mirrors `QDataStream::readRawData`,
which reads *at most* the requested count and returns the number of bytes
actually read: a request is only reported as failed by the source's
`!stream.readRawData(...)` checks when that count is zero.  Partial reads
therefore leave the unread tail of a stack variable at its previous
(possibly uninitialized) contents; those indeterminate bytes are made
explicit as `Junk` parameters.
-/

/-- An IP address: a 32-bit IPv4 value or a 128-bit IPv6 value
(`boost::asio::ip::address` in the source). -/
inductive Addr where
  | v4 (val : Nat)
  | v6 (val : Nat)
deriving DecidableEq, Repr

/-- `address::is_v4()`. -/
def Addr.isV4 : Addr → Bool
  | .v4 _ => true
  | .v6 _ => false

/-- `address::is_v6()`. -/
def Addr.isV6 : Addr → Bool
  | .v4 _ => false
  | .v6 _ => true

/-- ASCII whitespace, the characters `QByteArray::trimmed` /
`QString::trimmed` remove at either end. -/
def isSpaceCh (c : Char) : Bool :=
  c.toNat = 32 ∨ (9 ≤ c.toNat ∧ c.toNat ≤ 13)

/-- `trimmed()`: strip leading and trailing whitespace. -/
def trimL (l : List Char) : List Char :=
  ((l.dropWhile isSpaceCh).reverse.dropWhile isSpaceCh).reverse

/-- `split(d)` keeping empty parts (Qt's default split semantics). -/
def splitCh (d : Char) : List Char → List (List Char)
  | [] => [[]]
  | c :: rest =>
    if c = d then [] :: splitCh d rest
    else
      match splitCh d rest with
      | h :: t => (c :: h) :: t
      | [] => [[c]]

/-- `startsWith`: is the first list a prefix of the second? -/
def startsWithL : List Char → List Char → Bool
  | [], _ => true
  | _ :: _, [] => false
  | p :: ps, c :: cs => p = c && startsWithL ps cs

/-- `join(d)` / `intercalate`. -/
def joinCh (d : Char) : List (List Char) → List Char
  | [] => []
  | [p] => p
  | p :: ps => p ++ d :: joinCh d ps

/-- Decimal value of a digit string (callers guarantee all characters are digits). -/
def digitsValL (l : List Char) : Nat :=
  l.foldl (fun a c => a * 10 + (c.toNat - 48)) 0

/-- Modelled from the spec: one octet as the standard dotted-decimal parser
accepts it.  The actual parser (`boost::asio`'s `from_string`, ultimately
`inet_pton`) is not part of this repository; per the spec (§4.1) and the
source's own comment, a standard parser takes 1–3 decimal digits up to 255
and rejects leading zeroes. -/
def parseOctetStd (s : List Char) : Option Nat :=
  if s.length = 0 then none
  else if 3 < s.length then none
  else if ¬ s.all Char.isDigit then none
  else if 1 < s.length ∧ s.headD ' ' = '0' then none
  else
    let n := digitsValL s
    if n ≤ 255 then some n else none

/-- Modelled from the spec: the IPv4 branch of the standard address-literal
parser — exactly four dot-separated octets. -/
def parseV4Std (s : List Char) : Option Nat :=
  match (splitCh '.' s).mapM parseOctetStd with
  | some [a, b, c, d] => some (((a * 256 + b) * 256 + c) * 256 + d)
  | _ => none

/-- Hexadecimal digit test for IPv6 groups. -/
def isHexDigitCh (c : Char) : Bool :=
  c.isDigit || ('a' ≤ c ∧ c ≤ 'f') || ('A' ≤ c ∧ c ≤ 'F')

/-- Value of a hexadecimal digit. -/
def hexVal (c : Char) : Nat :=
  if c.isDigit then c.toNat - 48
  else if 'a' ≤ c then c.toNat - 87
  else c.toNat - 55

/-- Modelled from the spec: one 16-bit IPv6 group, 1–4 hexadecimal digits. -/
def parseHexGroupStd (s : List Char) : Option Nat :=
  if s.length = 0 ∨ 4 < s.length then none
  else if ¬ s.all isHexDigitCh then none
  else some (s.foldl (fun a c => a * 16 + hexVal c) 0)

/-- Big-endian value of a list of 16-bit IPv6 groups. -/
def groupsVal (l : List Nat) : Nat :=
  l.foldl (fun a g => a * 65536 + g) 0

/-- Split on the two-character separator `"::"` (as `String::splitOn`). -/
def splitDblColon : List Char → List (List Char)
  | [] => [[]]
  | ':' :: ':' :: rest => [] :: splitDblColon rest
  | c :: rest =>
    match splitDblColon rest with
    | h :: t => (c :: h) :: t
    | [] => [[c]]

/-- Modelled from the spec: the IPv6 branch of the standard address-literal
parser, RFC 4291 §2.2 forms 1 and 2 (eight colon-separated hex groups, with
an optional single `::` standing for one or more zero groups).  The
embedded-IPv4 form `::ffff:1.2.3.4` is omitted; no claim exercises it. -/
def parseV6Std (s : List Char) : Option Nat :=
  match splitDblColon s with
  | [t] =>
    match (splitCh ':' t).mapM parseHexGroupStd with
    | some gs => if gs.length = 8 then some (groupsVal gs) else none
    | none => none
  | [l, r] =>
    let lg := if l = [] then some [] else (splitCh ':' l).mapM parseHexGroupStd
    let rg := if r = [] then some [] else (splitCh ':' r).mapM parseHexGroupStd
    match lg, rg with
    | some ls, some rs =>
      if ls.length + rs.length ≤ 7 then
        some (groupsVal (ls ++ List.replicate (8 - ls.length - rs.length) 0 ++ rs))
      else none
    | _, _ => none
  | _ => none

/-- Modelled from the spec: the family-agnostic standard address-literal
parser (`libt::address::from_string`), trying IPv4 then IPv6. -/
def addressFromString (s : List Char) : Option Addr :=
  match parseV4Std s with
  | some n => some (Addr.v4 n)
  | none =>
    match parseV6Std s with
    | some n => some (Addr.v6 n)
    | none => none

/-- The leading-zero removal the source applies to one octet: at most two
leading `'0'` characters are dropped, and only while more characters remain
(`octet.remove(0, 2)` when the first two characters are `'0'` and the octet
is longer than two, `octet.remove(0, 1)` when only the first is `'0'` and
the octet is longer than one). -/
def stripOctet (octet : List Char) : List Char :=
  if octet.headD ' ' = '0' ∧ 1 < octet.length then
    if octet.getD 1 ' ' = '0' ∧ 2 < octet.length then octet.drop 2
    else octet.drop 1
  else octet

/-- `parseIPAddress` (anonymous namespace): trims the text, and when the
dot-split (empty parts skipped, `QString::SkipEmptyParts`) yields exactly
four octets, rejoins them with `.` after `stripOctet`; then delegates to
the standard parser. -/
def parseIPAddressL (ip : List Char) : Option Addr :=
  let t := trimL ip
  let octets := (splitCh '.' t).filter (· ≠ [])
  let t2 :=
    if octets.length = 4 then joinCh '.' (octets.map stripOctet)
    else t
  addressFromString t2

/-- String-facing wrapper for `parseIPAddressL`. -/
def parseIPAddress (ip : String) : Option Addr :=
  parseIPAddressL ip.toList

/-- A blocked range as `ip_filter::add_rule(startAddr, endAddr, blocked)`
records it.  `add_rule` itself accepts any same-family pair (reversed
ranges included, spec §9), so the source's `try`/`catch` around it never
fires in this model. -/
structure Rule where
  first : Addr
  last : Addr
deriving DecidableEq, Repr

/-- `QByteArray::toInt` on an already-trimmed field: optional sign, then
decimal digits only; any other shape, an empty field, or a value outside
the 32-bit `int` range fails. -/
def parseIntQ (s : List Char) : Option Int :=
  let (sgn, ds) :=
    match s with
    | '-' :: rest => ((-1 : Int), rest)
    | '+' :: rest => ((1 : Int), rest)
    | _ => ((1 : Int), s)
  if ds.length = 0 then none
  else if ¬ ds.all Char.isDigit then none
  else
    let v : Int := sgn * (digitsValL ds)
    if v < -2147483648 ∨ 2147483647 < v then none else some v

/-- `QByteArray::toInt`'s result: `0` whenever the conversion fails. -/
def toIntQt (s : List Char) : Int :=
  (parseIntQ s).getD 0

/-- A comment line in the text formats: starts with `#` or `//` after
trimming. -/
def isCommentLine (t : List Char) : Bool :=
  startsWithL ['#'] t || startsWithL ['/', '/'] t

/-- Lines 126–166 of the source: split the DAT line's first field on `-`,
require exactly two parts, parse both with `parseIPAddress`, reject
mixed-family pairs (both redundant `is_v4`/`is_v6` checks kept), then add
the rule. -/
def datRangeFieldRule (field0 : List Char) : Option Rule :=
  match splitCh '-' field0 with
  | [s1, s2] =>
    match parseIPAddressL s1, parseIPAddressL s2 with
    | some startAddr, some endAddr =>
      if startAddr.isV4 ≠ endAddr.isV4 then none
      else if startAddr.isV6 ≠ endAddr.isV6 then none
      else some ⟨startAddr, endAddr⟩
    | some _, none => none
    | none, _ => none
  | _ => none

/-- One iteration of `parseDATFilterFile`'s line loop: the rule the line
contributes, if any (`none` covers every `continue`). -/
def datLineRuleL (rawLine : List Char) : Option Rule :=
  let line := trimL rawLine
  if line = [] then none
  else if isCommentLine line then none
  else
    let partsList := splitCh ',' line
    if partsList.isEmpty then none
    else if 1 < partsList.length ∧ 127 < toIntQt (trimL (partsList.getD 1 [])) then
      none
    else datRangeFieldRule (partsList.headD [])

/-- String-facing wrapper for `datLineRuleL`. -/
def datLineRule (rawLine : String) : Option Rule :=
  datLineRuleL rawLine.toList

/-- Lines 201–242 of the source: the P2P parser's handling of the last
colon-field, textually the same code as `datRangeFieldRule`. -/
def p2pRangeFieldRule (fieldLast : List Char) : Option Rule :=
  match splitCh '-' fieldLast with
  | [s1, s2] =>
    match parseIPAddressL s1, parseIPAddressL s2 with
    | some startAddr, some endAddr =>
      if startAddr.isV4 ≠ endAddr.isV4 then none
      else if startAddr.isV6 ≠ endAddr.isV6 then none
      else some ⟨startAddr, endAddr⟩
    | some _, none => none
    | none, _ => none
  | _ => none

/-- One iteration of `parseP2PFilterFile`'s line loop. -/
def p2pLineRuleL (rawLine : List Char) : Option Rule :=
  let line := trimL rawLine
  if line = [] then none
  else if isCommentLine line then none
  else
    let partsList := splitCh ':' line
    if partsList.length < 2 then none
    else p2pRangeFieldRule ((partsList.getLast?).getD [])

/-- String-facing wrapper for `p2pLineRuleL`. -/
def p2pLineRule (rawLine : String) : Option Rule :=
  p2pLineRuleL rawLine.toList

/-- The cooperative cancellation flag `m_abort`, polled at well-defined
points: `abortAt = some k` means the flag reads `true` from the `k`-th
poll on (the write is never undone during a run), `none` means
cancellation is never requested. -/
def pollAbort (abortAt : Option Nat) (n : Nat) : Bool :=
  match abortAt with
  | none => false
  | some k => k ≤ n

/-- The DAT line loop (`while (!file.atEnd() && !m_abort)`): rules added
from this point on, plus the number of `m_abort` polls performed.  The
flag is polled once per line, before the line is processed; at end of
file the `&&` short-circuits and the flag is not polled. -/
def datLoop (abortAt : Option Nat) : List (List Char) → Nat → List Rule × Nat
  | [], n => ([], n)
  | l :: rest, n =>
    if pollAbort abortAt n then ([], n + 1)
    else
      ((datLineRuleL l).toList ++ (datLoop abortAt rest (n + 1)).1,
       (datLoop abortAt rest (n + 1)).2)

/-- The P2P line loop, identical in shape to the DAT one. -/
def p2pLoop (abortAt : Option Nat) : List (List Char) → Nat → List Rule × Nat
  | [], n => ([], n)
  | l :: rest, n =>
    if pollAbort abortAt n then ([], n + 1)
    else
      ((p2pLineRuleL l).toList ++ (p2pLoop abortAt rest (n + 1)).1,
       (p2pLoop abortAt rest (n + 1)).2)

/-- A diagnostics-sink message (`Logger::addMessage`, `Log::CRITICAL`).
Per-line skips are `qDebug` traces, not diagnostics, and are not modelled. -/
inductive LogMsg where
  | ioError
  | parseError
deriving DecidableEq, Repr

/-- A filter file as a parse run sees it: missing (`!file.exists()`),
existing but unopenable (`!file.open(...)`), or readable content.  The
`lines` and `bytes` fields are the text-mode and raw views of the same
on-disk data; each parser consults only the view it reads. -/
inductive FileInput where
  | missing
  | unopenable
  | content (lines : List (List Char)) (bytes : List Nat)

/-- What one parser invocation produces: the rules added (the source
counts them in `ruleCount` and stores them in `m_filter`), the fatal
diagnostics emitted, and the number of `m_abort` polls performed. -/
structure ParseOut where
  rules : List Rule
  logs : List LogMsg
  polls : Nat
deriving DecidableEq, Repr

/-- `FilterParserThread::parseDATFilterFile`.  A missing file returns 0
rules silently; an unopenable file logs the I/O error and returns 0
rules; otherwise the line loop runs. -/
def parseDATFilterFileA (input : FileInput) (abortAt : Option Nat) : ParseOut :=
  match input with
  | .missing => ⟨[], [], 0⟩
  | .unopenable => ⟨[], [.ioError], 0⟩
  | .content lines _ =>
    ⟨(datLoop abortAt lines 0).1, [], (datLoop abortAt lines 0).2⟩

/-- `FilterParserThread::parseP2PFilterFile`. -/
def parseP2PFilterFileA (input : FileInput) (abortAt : Option Nat) : ParseOut :=
  match input with
  | .missing => ⟨[], [], 0⟩
  | .unopenable => ⟨[], [.ioError], 0⟩
  | .content lines _ =>
    ⟨(p2pLoop abortAt lines 0).1, [], (p2pLoop abortAt lines 0).2⟩

/-- DAT parse with the cancellation flag never set. -/
def parseDATFilterFile (input : FileInput) : ParseOut :=
  parseDATFilterFileA input none

/-- P2P parse with the cancellation flag never set. -/
def parseP2PFilterFile (input : FileInput) : ParseOut :=
  parseP2PFilterFileA input none

/-- The rules a DAT parse of the given lines adds (no cancellation). -/
def datRules (lines : List String) : List Rule :=
  (parseDATFilterFile (.content (lines.map String.toList) [])).rules

/-- The rules a P2P parse of the given lines adds (no cancellation). -/
def p2pRules (lines : List String) : List Rule :=
  (parseP2PFilterFile (.content (lines.map String.toList) [])).rules

/-- `QDataStream::readRawData(target, n)` on the remaining byte list:
the bytes obtained, the remaining stream, and the count actually read
(`min n` remaining, never a failure code for an ordinary file). -/
def readRaw (s : List Nat) (n : Nat) : List Nat × List Nat × Nat :=
  (s.take n, s.drop n, min n s.length)

/-- Overwrite the first `read.length` bytes of a stack variable's memory
with the bytes a (possibly partial) `readRawData` delivered; the tail
keeps its previous contents. -/
def fillMem (old : List Nat) (read : List Nat) : List Nat :=
  read ++ old.drop read.length

/-- Normalize an arbitrary junk list to exactly `n` bytes, the size of the
uninitialized stack variable it stands for. -/
def takePad (n : Nat) (l : List Nat) : List Nat :=
  (l ++ List.replicate n 0).take n

/-- `ntohl` of an x86 in-memory 4-byte value, i.e. the big-endian value of
the bytes in stream order (what the source stores in `address_v4`). -/
def beVal (l : List Nat) : Nat :=
  l.foldl (fun a b => a * 256 + b) 0

/-- `FilterParserThread::getlineInStream`: read single bytes until the
delimiter `'\0'` is consumed or a read returns 0 bytes (end of stream);
result is the remaining stream and `total_read`, the number of bytes
consumed (delimiter included). -/
def getlineConsume : List Nat → Nat → List Nat × Nat
  | [], n => ([], n)
  | b :: rest, n =>
    if b = 0 then (rest, n + 1)
    else getlineConsume rest (n + 1)

/-- The initial contents of `parseP2BFilterFile`'s uninitialized stack
variables, which a partial `readRawData` leaves in place beyond the bytes
it delivers. -/
structure Junk where
  buf : List Nat
  start12 : List Nat
  end12 : List Nat
  nc : List Nat
  rc : List Nat
  name3 : List Nat
  start3 : List Nat
  end3 : List Nat

/-- All-zero junk, for concrete evaluations. -/
def junk0 : Junk :=
  ⟨[], [], [], [], [], [], [], []⟩

/-- The 7 magic bytes `FF FF FF FF 50 32 42` (`"\xFF\xFF\xFF\xFFP2B"`). -/
def p2bMagic : List Nat :=
  [255, 255, 255, 255, 80, 50, 66]

/-- The version 1/2 record loop (`while (getlineInStream(...) && !m_abort)`):
read a name; a 0-byte name read ends the loop cleanly; then poll `m_abort`;
then read two 4-byte values, where only a read delivering 0 bytes is
fatal, and add the rule.  `start`/`end` live outside the loop, so a
partial read keeps the previous iteration's bytes in the unread tail.
Fuel bounds the recursion; every continuing iteration consumes at least
one byte, so `s.length + 1` fuel is always enough.  Returns the rules
added from here on, whether the loop ended fatally, and the poll count. -/
def p2bLoop12 (abortAt : Option Nat) :
    Nat → List Nat → List Nat → List Nat → Nat → List Rule × Bool × Nat
  | 0, _, _, _, n => ([], false, n)
  | fuel + 1, s, startM, endM, n =>
    let rest := (getlineConsume s 0).1
    let tr := (getlineConsume s 0).2
    if tr = 0 then ([], false, n)
    else if pollAbort abortAt n then ([], false, n + 1)
    else
      let startM2 := fillMem startM (readRaw rest 4).1
      if (readRaw rest 4).2.2 = 0 then ([], true, n + 1)
      else
        let rest1 := (readRaw rest 4).2.1
        let endM2 := fillMem endM (readRaw rest1 4).1
        if (readRaw rest1 4).2.2 = 0 then ([], true, n + 1)
        else
          let rest2 := (readRaw rest1 4).2.1
          let r : Rule := ⟨Addr.v4 (beVal startM2), Addr.v4 (beVal endM2)⟩
          (r :: (p2bLoop12 abortAt fuel rest2 startM2 endM2 (n + 1)).1,
           (p2bLoop12 abortAt fuel rest2 startM2 endM2 (n + 1)).2.1,
           (p2bLoop12 abortAt fuel rest2 startM2 endM2 (n + 1)).2.2)

/-- Outcome of the version 3 name-reading phase. -/
inductive P2bPhase where
  | fatal (polls : Nat)
  | aborted (polls : Nat)
  | ok (rest : List Nat) (polls : Nat)
deriving DecidableEq, Repr

/-- The version 3 name loop: `namecount` names, each a `getlineInStream`
whose 0-byte read is fatal, followed by an `m_abort` poll that returns
the rule count (0 here) without a diagnostic. -/
def p2bNamesLoop (abortAt : Option Nat) : Nat → List Nat → Nat → P2bPhase
  | 0, s, n => .ok s n
  | cnt + 1, s, n =>
    let rest := (getlineConsume s 0).1
    let tr := (getlineConsume s 0).2
    if tr = 0 then .fatal n
    else if pollAbort abortAt n then .aborted (n + 1)
    else p2bNamesLoop abortAt cnt rest (n + 1)

/-- The version 3 range loop: `rangecount` records of 4-byte name index,
start and end; only a read delivering 0 bytes is fatal; the rule is added
and then `m_abort` is polled.  The three targets live outside the loop. -/
def p2bRangesLoop (abortAt : Option Nat) :
    Nat → List Nat → List Nat → List Nat → List Nat → Nat → List Rule × Bool × Nat
  | 0, _, _, _, _, n => ([], false, n)
  | cnt + 1, s, nameM, startM, endM, n =>
    let nameM2 := fillMem nameM (readRaw s 4).1
    if (readRaw s 4).2.2 = 0 then ([], true, n)
    else
      let s1 := (readRaw s 4).2.1
      let startM2 := fillMem startM (readRaw s1 4).1
      if (readRaw s1 4).2.2 = 0 then ([], true, n)
      else
        let s2 := (readRaw s1 4).2.1
        let endM2 := fillMem endM (readRaw s2 4).1
        if (readRaw s2 4).2.2 = 0 then ([], true, n)
        else
          let s3 := (readRaw s2 4).2.1
          let r : Rule := ⟨Addr.v4 (beVal startM2), Addr.v4 (beVal endM2)⟩
          if pollAbort abortAt n then ([r], false, n + 1)
          else
            (r :: (p2bRangesLoop abortAt cnt s3 nameM2 startM2 endM2 (n + 1)).1,
             (p2bRangesLoop abortAt cnt s3 nameM2 startM2 endM2 (n + 1)).2.1,
             (p2bRangesLoop abortAt cnt s3 nameM2 startM2 endM2 (n + 1)).2.2)

/-- `FilterParserThread::parseP2BFilterFile` on the raw bytes: the header
check (7 magic bytes then 1 version byte, `||`-short-circuited, each read
failed only when it delivers 0 bytes), then the version dispatch. -/
def parseP2BBytes (bytes : List Nat) (j : Junk) (abortAt : Option Nat) : ParseOut :=
  let bufM := fillMem (takePad 7 j.buf) (readRaw bytes 7).1
  if (readRaw bytes 7).2.2 = 0 then ⟨[], [.parseError], 0⟩
  else if bufM ≠ p2bMagic then ⟨[], [.parseError], 0⟩
  else
    let rest := (readRaw bytes 7).2.1
    if (readRaw rest 1).2.2 = 0 then ⟨[], [.parseError], 0⟩
    else
      let rest1 := (readRaw rest 1).2.1
      let version := ((readRaw rest 1).1).headD 0
      if version = 1 ∨ version = 2 then
        let out :=
          p2bLoop12 abortAt (rest1.length + 1) rest1
            (takePad 4 j.start12) (takePad 4 j.end12) 0
        ⟨out.1, if out.2.1 then [.parseError] else [], out.2.2⟩
      else if version = 3 then
        let ncM := fillMem (takePad 4 j.nc) (readRaw rest1 4).1
        if (readRaw rest1 4).2.2 = 0 then ⟨[], [.parseError], 0⟩
        else
          let r2 := (readRaw rest1 4).2.1
          match p2bNamesLoop abortAt (beVal ncM) r2 0 with
          | .fatal n => ⟨[], [.parseError], n⟩
          | .aborted n => ⟨[], [], n⟩
          | .ok r3 n =>
            let rcM := fillMem (takePad 4 j.rc) (readRaw r3 4).1
            if (readRaw r3 4).2.2 = 0 then ⟨[], [.parseError], n⟩
            else
              let r4 := (readRaw r3 4).2.1
              let out :=
                p2bRangesLoop abortAt (beVal rcM) r4
                  (takePad 4 j.name3) (takePad 4 j.start3) (takePad 4 j.end3) n
              ⟨out.1, if out.2.1 then [.parseError] else [], out.2.2⟩
      else ⟨[], [.parseError], 0⟩

/-- `FilterParserThread::parseP2BFilterFile`, including the missing /
unopenable early returns. -/
def parseP2BFilterFileA (input : FileInput) (j : Junk) (abortAt : Option Nat) :
    ParseOut :=
  match input with
  | .missing => ⟨[], [], 0⟩
  | .unopenable => ⟨[], [.ioError], 0⟩
  | .content _ bytes => parseP2BBytes bytes j abortAt

/-- P2B parse with the cancellation flag never set. -/
def parseP2BFilterFile (input : FileInput) (j : Junk) : ParseOut :=
  parseP2BFilterFileA input j none

/-- `QString::endsWith(suffix, Qt::CaseInsensitive)` for an ASCII suffix
given in lowercase. -/
def endsWithCI (path : String) (sfx : String) : Bool :=
  startsWithL sfx.toList.reverse (path.toList.map Char.toLower).reverse

/-- What `FilterParserThread::run` produces: the notification delivered to
the caller (`some count` for `IPFilterParsed(count)`, `none` when the
abort check suppresses it), the rules in `m_filter`, the diagnostics, and
the total number of `m_abort` polls (the final `if (m_abort)` check is
poll number `polls`). -/
structure RunOut where
  emit : Option Nat
  rules : List Rule
  logs : List LogMsg
  polls : Nat
deriving DecidableEq, Repr

/-- `FilterParserThread::run`: dispatch on the case-insensitive extension
(`.p2p`, then `.p2b`, then `.dat`; anything else runs no parser), then
check `m_abort` once more and, unless it is set, emit
`IPFilterParsed(ruleCount)`.  The `catch` branch emitting `IPFilterError`
fires only when delivering the notification itself throws, which the
model excludes. -/
def dispatchParse (path : String) (input : FileInput) (j : Junk)
    (abortAt : Option Nat) : ParseOut :=
  if endsWithCI path ".p2p" then parseP2PFilterFileA input abortAt
  else if endsWithCI path ".p2b" then parseP2BFilterFileA input j abortAt
  else if endsWithCI path ".dat" then parseDATFilterFileA input abortAt
  else ⟨[], [], 0⟩

/-- The tail of `FilterParserThread::run` after the extension dispatch:
one final `if (m_abort) return;` poll, then the notification. -/
def run (path : String) (input : FileInput) (j : Junk) (abortAt : Option Nat) :
    RunOut :=
  let out := dispatchParse path input j abortAt
  if pollAbort abortAt out.polls then ⟨none, out.rules, out.logs, out.polls⟩
  else ⟨some out.rules.length, out.rules, out.logs, out.polls⟩

/-! ## Helper lemmas -/

theorem takePad_length (n : Nat) (l : List Nat) : (takePad n l).length = n := by
  simp [takePad]

theorem fillMem_of_length_le (old read : List Nat) (h : old.length ≤ read.length) :
    fillMem old read = read := by
  simp [fillMem, List.drop_eq_nil_of_le h]

theorem parseIPAddressL_of_four (s : List Char)
    (h : ((splitCh '.' (trimL s)).filter (· ≠ [])).length = 4) :
    parseIPAddressL s =
      addressFromString
        (joinCh '.' (((splitCh '.' (trimL s)).filter (· ≠ [])).map stripOctet)) := by
  simp only [parseIPAddressL, h, if_pos]

theorem parseIPAddressL_of_not_four (s : List Char)
    (h : ((splitCh '.' (trimL s)).filter (· ≠ [])).length ≠ 4) :
    parseIPAddressL s = addressFromString (trimL s) := by
  simp only [parseIPAddressL, h, if_neg, ite_false]

/-! ## C4 -/

/-- C4 counterexample: the claim says all leading zero characters of each
octet are stripped before delegation, which would make
`parse("0001.2.3.4")` and `parse("1.2.3.4")` agree; in fact the source
removes at most two leading zeroes, hands `"01.2.3.4"` to the standard
parser, and fails, while `parse("1.2.3.4")` succeeds. -/
theorem c4_leading_zero_counterexample :
    parseIPAddress "0001.2.3.4" ≠ parseIPAddress "1.2.3.4" ∧
    parseIPAddress "0001.2.3.4" = none ∧
    parseIPAddress "1.2.3.4" = some (Addr.v4 16909060) ∧
    stripOctet "0001".toList = "01".toList := by
  refine ⟨by decide, by decide, by decide, by decide⟩

/-- C4 (amended): for a text with exactly four dot-separated octets the
parser strips at most two leading zero characters from each octet (fully
normalizing octets of up to three digits) and delegates the rejoined
text to the standard parser; other inputs are passed through untouched
after trimming; `parse("001.009.106.186")` and `parse("1.9.106.186")`
agree, `parse("256.1.1.1")` fails, `parse("::1")` succeeds and is not
IPv4. -/
theorem c4_leading_zero_normalization :
    (∀ (s : String) (octets : List (List Char)),
      octets = (splitCh '.' (trimL s.toList)).filter (· ≠ []) →
      (octets.length = 4 →
        parseIPAddress s = addressFromString (joinCh '.' (octets.map stripOctet))) ∧
      (octets.length ≠ 4 → parseIPAddress s = addressFromString (trimL s.toList))) ∧
    parseIPAddress "001.009.106.186" = parseIPAddress "1.9.106.186" ∧
    parseIPAddress "1.9.106.186" = some (Addr.v4 17394362) ∧
    parseIPAddress "256.1.1.1" = none ∧
    parseIPAddress "::1" = some (Addr.v6 1) ∧
    (Addr.v6 1).isV4 = false := by
  refine ⟨?_, by decide, by decide, by decide, by decide, by decide⟩
  intro s octets h
  subst h
  exact ⟨fun h4 => parseIPAddressL_of_four s.toList h4,
    fun h4 => parseIPAddressL_of_not_four s.toList h4⟩

/-- C4 witness: the amended normalization at a concrete four-octet input. -/
theorem c4_leading_zero_normalization_witness :
    parseIPAddress "010.2.3.4" =
      addressFromString
        (joinCh '.'
          ((((splitCh '.' (trimL "010.2.3.4".toList)).filter (· ≠ [])).map stripOctet))) :=
  (c4_leading_zero_normalization.1 "010.2.3.4" _ rfl).1 (by decide)

/-! ## C10 -/

/-- C10: splitting on `.` drops empty segments, so any text whose dot
split leaves exactly four non-empty parts is rejoined with single dots
(after the octet normalization) and parsed; `"1..2.3.4"` therefore
parses to the same address as `"1.2.3.4"` even though the standard
parser rejects the original text. -/
theorem c10_skip_empty_parts :
    (∀ (s : String) (octets : List (List Char)),
      octets = (splitCh '.' (trimL s.toList)).filter (· ≠ []) →
      octets.length = 4 →
      parseIPAddress s = addressFromString (joinCh '.' (octets.map stripOctet))) ∧
    parseIPAddress "1..2.3.4" = parseIPAddress "1.2.3.4" ∧
    parseIPAddress "1.2.3.4" = some (Addr.v4 16909060) ∧
    addressFromString "1..2.3.4".toList = none := by
  refine ⟨?_, by decide, by decide, by decide⟩
  intro s octets h h4
  subst h
  exact parseIPAddressL_of_four s.toList h4

/-- C10 witness: the quantified part applied at `"1..2.3.4"`. -/
theorem c10_skip_empty_parts_witness :
    parseIPAddress "1..2.3.4" =
      addressFromString
        (joinCh '.'
          ((((splitCh '.' (trimL "1..2.3.4".toList)).filter (· ≠ [])).map stripOctet))) :=
  c10_skip_empty_parts.1 "1..2.3.4" _ rfl (by decide)

/-! ## C1 -/

theorem datLineRuleL_access_skip (l : List Char)
    (hne : trimL l ≠ []) (hcom : isCommentLine (trimL l) = false)
    (hlen : 2 ≤ (splitCh ',' (trimL l)).length)
    (hacc : 127 < toIntQt (trimL ((splitCh ',' (trimL l)).getD 1 []))) :
    datLineRuleL l = none := by
  have hni : (splitCh ',' (trimL l)).isEmpty = false := by
    cases h : splitCh ',' (trimL l) with
    | nil => rw [h] at hlen; simp at hlen
    | cons a t => simp
  simp only [datLineRuleL]
  rw [if_neg hne, if_neg (by simp [hcom]), if_neg (by simp [hni]),
    if_pos ⟨by omega, hacc⟩]

theorem datLineRuleL_access_pass (l : List Char)
    (hne : trimL l ≠ []) (hcom : isCommentLine (trimL l) = false)
    (hlen : 2 ≤ (splitCh ',' (trimL l)).length)
    (hacc : toIntQt (trimL ((splitCh ',' (trimL l)).getD 1 [])) ≤ 127) :
    datLineRuleL l = datRangeFieldRule ((splitCh ',' (trimL l)).headD []) := by
  have hni : (splitCh ',' (trimL l)).isEmpty = false := by
    cases h : splitCh ',' (trimL l) with
    | nil => rw [h] at hlen; simp at hlen
    | cons a t => simp
  simp only [datLineRuleL]
  rw [if_neg hne, if_neg (by simp [hcom]), if_neg (by simp [hni]),
    if_neg (fun hand => absurd hand.2 (by omega))]

/-- C1: in the DAT format a line with at least two comma fields is
skipped at the access-level check exactly when the trimmed second field
reads, via `QByteArray::toInt`, as an integer above 127 (a field that
fails to convert counts as 0 and the line continues to the range stage,
as does a line with no access field); `"1.2.3.4-1.2.3.9,200"` adds no
rule while `"1.2.3.4-1.2.3.9,50"` and `"1.2.3.4-1.2.3.9"` each add the
one rule spanning those addresses. -/
theorem c1_dat_access_level :
    (∀ (l : String) (parts : List (List Char)),
      parts = splitCh ',' (trimL l.toList) →
      trimL l.toList ≠ [] →
      isCommentLine (trimL l.toList) = false →
      2 ≤ parts.length →
      ((127 < toIntQt (trimL (parts.getD 1 [])) → datLineRule l = none) ∧
       (toIntQt (trimL (parts.getD 1 [])) ≤ 127 →
        datLineRule l = datRangeFieldRule (parts.headD [])))) ∧
    (∀ s : List Char, parseIntQ s = none → toIntQt s = 0) ∧
    datRules ["1.2.3.4-1.2.3.9,200"] = [] ∧
    datRules ["1.2.3.4-1.2.3.9,50"] = [⟨Addr.v4 16909060, Addr.v4 16909065⟩] ∧
    datRules ["1.2.3.4-1.2.3.9"] = [⟨Addr.v4 16909060, Addr.v4 16909065⟩] := by
  refine ⟨?_, ?_, by decide, by decide, by decide⟩
  · intro l parts hp hne hcom hlen
    subst hp
    exact ⟨fun hacc => datLineRuleL_access_skip l.toList hne hcom hlen hacc,
      fun hacc => datLineRuleL_access_pass l.toList hne hcom hlen hacc⟩
  · intro s h
    simp [toIntQt, h]

/-- C1 witness: the access-level dichotomy applied at the two concrete
lines of the claim. -/
theorem c1_dat_access_level_witness :
    datLineRule "1.2.3.4-1.2.3.9,200" = none ∧
    datLineRule "1.2.3.4-1.2.3.9,50" =
      datRangeFieldRule ((splitCh ',' (trimL "1.2.3.4-1.2.3.9,50".toList)).headD []) :=
  ⟨(c1_dat_access_level.1 "1.2.3.4-1.2.3.9,200" _ rfl (by decide) (by decide)
      (by decide)).1 (by decide),
   (c1_dat_access_level.1 "1.2.3.4-1.2.3.9,50" _ rfl (by decide) (by decide)
      (by decide)).2 (by decide)⟩

/-! ## C8 -/

/-- C8: the P2P parser handles the last colon-field of a line exactly as
the DAT parser handles its first comma-field from the dash-split on
(the two source blocks are the same code), and on a line with at least
two colon fields the whole line processing reduces to that shared range
handling; concretely `"sometag:1.2.3.4-1.2.3.9"` yields the same single
rule as the DAT line `"1.2.3.4-1.2.3.9"`. -/
theorem c8_p2p_refines_dat :
    (∀ f : List Char, p2pRangeFieldRule f = datRangeFieldRule f) ∧
    (∀ (l : String) (parts : List (List Char)),
      parts = splitCh ':' (trimL l.toList) →
      trimL l.toList ≠ [] →
      isCommentLine (trimL l.toList) = false →
      2 ≤ parts.length →
      p2pLineRule l = datRangeFieldRule ((parts.getLast?).getD [])) ∧
    p2pRules ["sometag:1.2.3.4-1.2.3.9"] = datRules ["1.2.3.4-1.2.3.9"] ∧
    datRules ["1.2.3.4-1.2.3.9"] = [⟨Addr.v4 16909060, Addr.v4 16909065⟩] := by
  refine ⟨fun f => rfl, ?_, by decide, by decide⟩
  intro l parts hp hne hcom hlen
  subst hp
  simp only [p2pLineRule, p2pLineRuleL]
  rw [if_neg hne, if_neg (by simp only [hcom]; decide), if_neg (by omega)]
  rfl

/-- C8 witness: the line-level refinement at the claim's concrete line. -/
theorem c8_p2p_refines_dat_witness :
    p2pLineRule "sometag:1.2.3.4-1.2.3.9" =
      datRangeFieldRule
        (((splitCh ':' (trimL "sometag:1.2.3.4-1.2.3.9".toList)).getLast?).getD []) :=
  c8_p2p_refines_dat.2.1 "sometag:1.2.3.4-1.2.3.9" _ rfl (by decide) (by decide)
    (by decide)

/-! ## C3 -/

/-- C3 counterexample: the claim says a missing filter file is reported
to the diagnostics sink as a fatal I/O error; in fact the
`!file.exists()` path of every parser returns 0 rules silently — only
the exists-but-unopenable path logs. -/
theorem c3_missing_file_counterexample :
    (parseDATFilterFile FileInput.missing).logs = [] ∧
    LogMsg.ioError ∉ (parseDATFilterFile FileInput.missing).logs ∧
    (parseDATFilterFile FileInput.missing).rules = [] := by
  refine ⟨rfl, by simp [parseDATFilterFile, parseDATFilterFileA], rfl⟩

/-- C3 (amended): a missing file makes every parser end with 0 rules and
no diagnostic, while a file that exists but cannot be opened for reading
logs the fatal I/O error and also ends with 0 rules; in both cases the
run still delivers `onParsed(0)` rather than a distinct failure signal. -/
theorem c3_io_error_reporting :
    ∀ (path : String) (j : Junk),
      parseDATFilterFile .missing = ⟨[], [], 0⟩ ∧
      parseP2PFilterFile .missing = ⟨[], [], 0⟩ ∧
      parseP2BFilterFile .missing j = ⟨[], [], 0⟩ ∧
      parseDATFilterFile .unopenable = ⟨[], [.ioError], 0⟩ ∧
      parseP2PFilterFile .unopenable = ⟨[], [.ioError], 0⟩ ∧
      parseP2BFilterFile .unopenable j = ⟨[], [.ioError], 0⟩ ∧
      (run path .missing j none).emit = some 0 ∧
      (run path .missing j none).logs = [] ∧
      (run path .unopenable j none).emit = some 0 ∧
      (run path .unopenable j none).rules = [] := by
  intro path j
  refine ⟨rfl, rfl, rfl, rfl, rfl, rfl, ?_, ?_, ?_, ?_⟩ <;>
    · unfold run dispatchParse
      by_cases h1 : endsWithCI path ".p2p" <;>
        by_cases h2 : endsWithCI path ".p2b" <;>
          by_cases h3 : endsWithCI path ".dat" <;>
            simp [h1, h2, h3, pollAbort, parseDATFilterFileA, parseP2PFilterFileA,
              parseP2BFilterFileA]

/-! ## C9 -/

/-- C9: a path whose extension is, case-insensitively, none of `.p2p`,
`.p2b`, `.dat` runs no parser: the job completes with an empty rule set,
no diagnostics, and the caller is notified with a count of 0. -/
theorem c9_unrecognized_extension :
    ∀ (path : String) (input : FileInput) (j : Junk),
      endsWithCI path ".p2p" = false →
      endsWithCI path ".p2b" = false →
      endsWithCI path ".dat" = false →
      run path input j none = ⟨some 0, [], [], 0⟩ := by
  intro path input j h1 h2 h3
  unfold run dispatchParse
  simp [h1, h2, h3, pollAbort]

/-- C9 witness: a `.txt` path with non-trivial content still completes
with 0 rules. -/
theorem c9_unrecognized_extension_witness :
    run "ipfilter.TXT" (.content ["1.2.3.4-1.2.3.9".toList] [255, 255]) junk0 none =
      ⟨some 0, [], [], 0⟩ :=
  c9_unrecognized_extension "ipfilter.TXT" _ junk0 (by decide) (by decide) (by decide)

/-! ## C5 -/

theorem fillMem_takePad_eq_take (bytes : List Nat) (l : List Nat)
    (h : 7 ≤ bytes.length) :
    fillMem (takePad 7 l) (bytes.take 7) = bytes.take 7 := by
  apply fillMem_of_length_le
  rw [takePad_length]
  simp [h]

theorem parseP2B_header_reject (bytes : List Nat) (j : Junk) (abortAt : Option Nat)
    (h : ¬(8 ≤ bytes.length ∧ bytes.take 7 = p2bMagic)) :
    parseP2BBytes bytes j abortAt = ⟨[], [.parseError], 0⟩ := by
  by_cases h0 : bytes.length = 0
  · have hb : bytes = [] := List.length_eq_zero.mp h0
    subst hb
    rfl
  · have hc : min 7 bytes.length ≠ 0 := by omega
    by_cases hm : fillMem (takePad 7 j.buf) (bytes.take 7) = p2bMagic
    · have hlt : bytes.length ≤ 7 := by
        by_contra hgt
        push_neg at hgt
        have h7 : (7 : Nat) ≤ bytes.length := by omega
        exact h ⟨by omega, by rw [← fillMem_takePad_eq_take bytes j.buf h7]; exact hm⟩
      have hdrop : bytes.drop 7 = [] := List.drop_eq_nil_of_le hlt
      simp only [parseP2BBytes, readRaw]
      rw [if_neg hc, if_neg (not_not_intro hm)]
      simp [hdrop]
    · simp only [parseP2BBytes, readRaw]
      rw [if_neg hc, if_pos hm]

theorem parseP2B_bad_version (bytes : List Nat) (j : Junk) (abortAt : Option Nat)
    (h8 : 8 ≤ bytes.length) (hmag : bytes.take 7 = p2bMagic)
    (hv1 : bytes.getD 7 0 ≠ 1) (hv2 : bytes.getD 7 0 ≠ 2) (hv3 : bytes.getD 7 0 ≠ 3) :
    parseP2BBytes bytes j abortAt = ⟨[], [.parseError], 0⟩ := by
  have hc : min 7 bytes.length ≠ 0 := by omega
  have hm : fillMem (takePad 7 j.buf) (bytes.take 7) = p2bMagic := by
    rw [fillMem_takePad_eq_take bytes j.buf (by omega)]
    exact hmag
  have h7 : 7 < bytes.length := by omega
  have hdrop : bytes.drop 7 = bytes.getD 7 0 :: bytes.drop 8 := by
    rw [List.drop_eq_getElem_cons h7]
    congr 1
    simp [List.getD_eq_getElem?_getD, List.getElem?_eq_getElem h7]
  simp only [parseP2BBytes, readRaw]
  rw [if_neg hc, if_neg (not_not_intro hm)]
  simp only [hdrop, List.take_succ_cons, List.take_zero, List.drop_succ_cons,
    List.drop_zero, List.length_cons, List.headD]
  rw [if_neg (by omega)]
  rw [if_neg (by push_neg; exact ⟨hv1, hv2⟩), if_neg hv3]

/-- C5: the P2B parser demands 7 bytes equal to `FF FF FF FF 50 32 42`
followed by one version byte; any header that is shorter or differs is a
fatal format error with 0 rules, and so is any version byte other than
1, 2 or 3. -/
theorem c5_p2b_header :
    ∀ (bytes : List Nat) (j : Junk),
      (¬(8 ≤ bytes.length ∧ bytes.take 7 = p2bMagic) →
        parseP2BFilterFile (.content [] bytes) j = ⟨[], [.parseError], 0⟩) ∧
      (8 ≤ bytes.length → bytes.take 7 = p2bMagic →
        bytes.getD 7 0 ≠ 1 → bytes.getD 7 0 ≠ 2 → bytes.getD 7 0 ≠ 3 →
        parseP2BFilterFile (.content [] bytes) j = ⟨[], [.parseError], 0⟩) :=
  fun bytes j =>
    ⟨fun h => parseP2B_header_reject bytes j none h,
     fun h8 hm h1 h2 h3 => parseP2B_bad_version bytes j none h8 hm h1 h2 h3⟩

/-- C5 witness: a bad magic and a version byte of 9 both end fatally
with 0 rules. -/
theorem c5_p2b_header_witness :
    parseP2BFilterFile (.content [] [255, 255]) junk0 = ⟨[], [.parseError], 0⟩ ∧
    parseP2BFilterFile (.content [] (p2bMagic ++ [9])) junk0 =
      ⟨[], [.parseError], 0⟩ :=
  ⟨(c5_p2b_header [255, 255] junk0).1 (by decide),
   (c5_p2b_header (p2bMagic ++ [9]) junk0).2 (by decide) (by decide) (by decide)
     (by decide) (by decide)⟩

/-! ## C2 -/

theorem takePad_drop_self (n : Nat) (l : List Nat) : (takePad n l).drop n = [] :=
  List.drop_eq_nil_of_le (by rw [takePad_length])

/-- Magic, version 1, the name `"x"` with its terminator, a full 4-byte
start, and then only 3 of the 4 bytes of `end`. -/
def c2FailBytes : List Nat :=
  [255, 255, 255, 255, 80, 50, 66, 1, 120, 0, 1, 2, 3, 4, 5, 6, 7]

/-- C2 (code bug at this input): after a non-empty name, a truncated
read of the two 4-byte integers is claimed to be a fatal format error;
but `QDataStream::readRawData` reports the 3 bytes it could deliver and
the source's `!readRawData(...)` check only fires on a 0-byte read, so
the parse adds one rule — whose low `end` byte is whatever the
uninitialized stack held — and finishes with no diagnostic at all. -/
theorem c2_truncated_record_not_fatal :
    ∀ j : Junk,
      ((parseP2BFilterFile (.content [] c2FailBytes) j).rules).length = 1 ∧
      ((parseP2BFilterFile (.content [] c2FailBytes) j).rules).map Rule.first =
        [Addr.v4 16909060] ∧
      (parseP2BFilterFile (.content [] c2FailBytes) j).logs = [] := by
  intro j
  simp [parseP2BFilterFile, parseP2BFilterFileA, parseP2BBytes, c2FailBytes, readRaw,
    getlineConsume, p2bLoop12, pollAbort, fillMem, takePad_drop_self, beVal,
    p2bMagic, takePad_length]

/-! ## C6 -/

/-- Magic, version 3, `nameCount = 0`, `rangeCount = 1`, a full name
index and start, and then only 3 of the 4 bytes of `end`. -/
def c6FailBytes : List Nat :=
  [255, 255, 255, 255, 80, 50, 66, 3, 0, 0, 0, 0, 0, 0, 0, 1,
   0, 0, 0, 9, 1, 2, 3, 4, 5, 6, 7]

/-- C6 (code bug at this input): a truncated read in the version 3 range
phase is claimed fatal; a final record cut 1–3 bytes short instead goes
undetected (`readRawData` returns the non-zero count it read), the rule
is added with an indeterminate low byte, and the parse ends successfully
with no diagnostic. -/
theorem c6_truncated_v3_record_not_fatal :
    ∀ j : Junk,
      ((parseP2BFilterFile (.content [] c6FailBytes) j).rules).length = 1 ∧
      ((parseP2BFilterFile (.content [] c6FailBytes) j).rules).map Rule.first =
        [Addr.v4 16909060] ∧
      (parseP2BFilterFile (.content [] c6FailBytes) j).logs = [] := by
  intro j
  simp [parseP2BFilterFile, parseP2BFilterFileA, parseP2BBytes, c6FailBytes, readRaw,
    getlineConsume, p2bNamesLoop, p2bRangesLoop, pollAbort, fillMem,
    takePad_drop_self, beVal, p2bMagic, takePad_length]

/-! ## C7 -/

theorem datLoop_abort_take (k : Nat) (lines : List (List Char)) (n : Nat) :
    (datLoop (some k) lines n).1 = (datLoop none (lines.take (k - n)) n).1 := by
  induction lines generalizing n with
  | nil => simp [datLoop]
  | cons l rest ih =>
    by_cases h : k ≤ n
    · have h0 : k - n = 0 := by omega
      simp [datLoop, pollAbort, h, h0]
    · have hk : k - n = (k - (n + 1)) + 1 := by omega
      rw [hk, List.take_succ_cons]
      simp [datLoop, pollAbort, h, ih (n + 1)]

theorem datLoop_abort_rules_take (k : Nat) (lines : List (List Char)) (n : Nat) :
    ∃ m, (datLoop (some k) lines n).1 = ((datLoop none lines n).1).take m := by
  induction lines generalizing n with
  | nil => exact ⟨0, by simp [datLoop]⟩
  | cons l rest ih =>
    by_cases h : k ≤ n
    · exact ⟨0, by simp [datLoop, pollAbort, h]⟩
    · obtain ⟨m, hm⟩ := ih (n + 1)
      refine ⟨(datLineRuleL l).toList.length + m, ?_⟩
      simp [datLoop, pollAbort, h, hm, List.take_append]

theorem p2pLoop_abort_rules_take (k : Nat) (lines : List (List Char)) (n : Nat) :
    ∃ m, (p2pLoop (some k) lines n).1 = ((p2pLoop none lines n).1).take m := by
  induction lines generalizing n with
  | nil => exact ⟨0, by simp [p2pLoop]⟩
  | cons l rest ih =>
    by_cases h : k ≤ n
    · exact ⟨0, by simp [p2pLoop, pollAbort, h]⟩
    · obtain ⟨m, hm⟩ := ih (n + 1)
      refine ⟨(p2pLineRuleL l).toList.length + m, ?_⟩
      simp [p2pLoop, pollAbort, h, hm, List.take_append]

theorem p2bLoop12_abort_rules_take (k fuel : Nat) (s sm em : List Nat) (n : Nat) :
    ∃ m, (p2bLoop12 (some k) fuel s sm em n).1 =
      ((p2bLoop12 none fuel s sm em n).1).take m := by
  induction fuel generalizing s sm em n with
  | zero => exact ⟨0, by simp [p2bLoop12]⟩
  | succ fuel ih =>
    by_cases htr : (getlineConsume s 0).2 = 0
    · exact ⟨0, by simp [p2bLoop12, htr]⟩
    · by_cases hab : k ≤ n
      · exact ⟨0, by simp [p2bLoop12, htr, pollAbort, hab]⟩
      · by_cases hc1 : (readRaw (getlineConsume s 0).1 4).2.2 = 0
        · exact ⟨0, by simp [p2bLoop12, htr, pollAbort, hab, hc1]⟩
        · by_cases hc2 :
            (readRaw (readRaw (getlineConsume s 0).1 4).2.1 4).2.2 = 0
          · exact ⟨0, by simp [p2bLoop12, htr, pollAbort, hab, hc1, hc2]⟩
          · obtain ⟨m, hm⟩ :=
              ih (readRaw (readRaw (getlineConsume s 0).1 4).2.1 4).2.1
                (fillMem sm (readRaw (getlineConsume s 0).1 4).1)
                (fillMem em (readRaw (readRaw (getlineConsume s 0).1 4).2.1 4).1)
                (n + 1)
            refine ⟨m + 1, ?_⟩
            simp [p2bLoop12, htr, pollAbort, hab, hc1, hc2, hm, List.take_succ_cons]

theorem p2bNamesLoop_none_of_abort_fatal (k cnt : Nat) (s : List Nat) (n n' : Nat)
    (h : p2bNamesLoop (some k) cnt s n = .fatal n') :
    p2bNamesLoop none cnt s n = .fatal n' := by
  induction cnt generalizing s n with
  | zero => simp [p2bNamesLoop] at h
  | succ cnt ih =>
    by_cases htr : (getlineConsume s 0).2 = 0
    · simp [p2bNamesLoop, htr] at h ⊢
      exact h
    · by_cases hab : k ≤ n
      · simp [p2bNamesLoop, htr, pollAbort, hab] at h
      · simp [p2bNamesLoop, htr, pollAbort, hab] at h ⊢
        exact ih _ _ h

theorem p2bNamesLoop_none_of_abort_ok (k cnt : Nat) (s : List Nat) (n : Nat)
    (rest : List Nat) (n' : Nat)
    (h : p2bNamesLoop (some k) cnt s n = .ok rest n') :
    p2bNamesLoop none cnt s n = .ok rest n' := by
  induction cnt generalizing s n with
  | zero => simpa [p2bNamesLoop] using h
  | succ cnt ih =>
    by_cases htr : (getlineConsume s 0).2 = 0
    · simp [p2bNamesLoop, htr] at h
    · by_cases hab : k ≤ n
      · simp [p2bNamesLoop, htr, pollAbort, hab] at h
      · simp [p2bNamesLoop, htr, pollAbort, hab] at h ⊢
        exact ih _ _ h

theorem p2bRangesLoop_abort_rules_take (k cnt : Nat) (s nm sm em : List Nat)
    (n : Nat) :
    ∃ m, (p2bRangesLoop (some k) cnt s nm sm em n).1 =
      ((p2bRangesLoop none cnt s nm sm em n).1).take m := by
  induction cnt generalizing s nm sm em n with
  | zero => exact ⟨0, by simp [p2bRangesLoop]⟩
  | succ cnt ih =>
    by_cases hc1 : (readRaw s 4).2.2 = 0
    · exact ⟨0, by simp [p2bRangesLoop, hc1]⟩
    · by_cases hc2 : (readRaw (readRaw s 4).2.1 4).2.2 = 0
      · exact ⟨0, by simp [p2bRangesLoop, hc1, hc2]⟩
      · by_cases hc3 : (readRaw (readRaw (readRaw s 4).2.1 4).2.1 4).2.2 = 0
        · exact ⟨0, by simp [p2bRangesLoop, hc1, hc2, hc3]⟩
        · by_cases hab : k ≤ n
          · refine ⟨1, ?_⟩
            simp [p2bRangesLoop, hc1, hc2, hc3, pollAbort, hab, List.take_succ_cons]
          · obtain ⟨m, hm⟩ :=
              ih (readRaw (readRaw (readRaw s 4).2.1 4).2.1 4).2.1
                (fillMem nm (readRaw s 4).1)
                (fillMem sm (readRaw (readRaw s 4).2.1 4).1)
                (fillMem em (readRaw (readRaw (readRaw s 4).2.1 4).2.1 4).1) (n + 1)
            refine ⟨m + 1, ?_⟩
            simp [p2bRangesLoop, hc1, hc2, hc3, pollAbort, hab, hm,
              List.take_succ_cons]

theorem parseP2BBytes_abort_rules_take (bytes : List Nat) (j : Junk) (k : Nat) :
    ∃ m, (parseP2BBytes bytes j (some k)).rules =
      ((parseP2BBytes bytes j none).rules).take m := by
  by_cases hc : (readRaw bytes 7).2.2 = 0
  · exact ⟨0, by simp [parseP2BBytes, hc]⟩
  · by_cases hm : fillMem (takePad 7 j.buf) (readRaw bytes 7).1 ≠ p2bMagic
    · exact ⟨0, by simp [parseP2BBytes, hc, hm]⟩
    · by_cases hcv : (readRaw (readRaw bytes 7).2.1 1).2.2 = 0
      · exact ⟨0, by simp [parseP2BBytes, hc, hm, hcv]⟩
      · by_cases h12 : ((readRaw (readRaw bytes 7).2.1 1).1).head?.getD 0 = 1 ∨
          ((readRaw (readRaw bytes 7).2.1 1).1).head?.getD 0 = 2
        · obtain ⟨m, h12t⟩ :=
            p2bLoop12_abort_rules_take k
              ((readRaw (readRaw bytes 7).2.1 1).2.1.length + 1)
              (readRaw (readRaw bytes 7).2.1 1).2.1
              (takePad 4 j.start12) (takePad 4 j.end12) 0
          exact ⟨m, by simp [parseP2BBytes, hc, hm, hcv, h12, h12t]⟩
        · by_cases h3 : ((readRaw (readRaw bytes 7).2.1 1).1).head?.getD 0 = 3
          · by_cases hcn : (readRaw (readRaw (readRaw bytes 7).2.1 1).2.1 4).2.2 = 0
            · exact ⟨0, by simp [parseP2BBytes, hc, hm, hcv, h12, h3, hcn]⟩
            · rcases hA : p2bNamesLoop (some k)
                  (beVal (fillMem (takePad 4 j.nc)
                    (readRaw (readRaw (readRaw bytes 7).2.1 1).2.1 4).1))
                  (readRaw (readRaw (readRaw bytes 7).2.1 1).2.1 4).2.1 0 with
                n' | n' | ⟨r3, n'⟩
              · have hN := p2bNamesLoop_none_of_abort_fatal _ _ _ _ _ hA
                exact ⟨0, by simp [parseP2BBytes, hc, hm, hcv, h12, h3, hcn, hA, hN]⟩
              · exact ⟨0, by simp [parseP2BBytes, hc, hm, hcv, h12, h3, hcn, hA]⟩
              · have hN := p2bNamesLoop_none_of_abort_ok _ _ _ _ _ _ hA
                by_cases hcr : (readRaw r3 4).2.2 = 0
                · exact ⟨0, by
                    simp [parseP2BBytes, hc, hm, hcv, h12, h3, hcn, hA, hN, hcr]⟩
                · obtain ⟨m, hmr⟩ :=
                    p2bRangesLoop_abort_rules_take k
                      (beVal (fillMem (takePad 4 j.rc) (readRaw r3 4).1))
                      (readRaw r3 4).2.1
                      (takePad 4 j.name3) (takePad 4 j.start3) (takePad 4 j.end3) n'
                  exact ⟨m, by
                    simp [parseP2BBytes, hc, hm, hcv, h12, h3, hcn, hA, hN, hcr, hmr]⟩
          · exact ⟨0, by simp [parseP2BBytes, hc, hm, hcv, h12, h3]⟩

theorem parseDATFilterFileA_abort_rules_take (input : FileInput) (k : Nat) :
    ∃ m, (parseDATFilterFileA input (some k)).rules =
      ((parseDATFilterFileA input none).rules).take m := by
  cases input with
  | missing => exact ⟨0, rfl⟩
  | unopenable => exact ⟨0, rfl⟩
  | content lines bytes => simpa [parseDATFilterFileA] using datLoop_abort_rules_take k lines 0

theorem parseP2PFilterFileA_abort_rules_take (input : FileInput) (k : Nat) :
    ∃ m, (parseP2PFilterFileA input (some k)).rules =
      ((parseP2PFilterFileA input none).rules).take m := by
  cases input with
  | missing => exact ⟨0, rfl⟩
  | unopenable => exact ⟨0, rfl⟩
  | content lines bytes => simpa [parseP2PFilterFileA] using p2pLoop_abort_rules_take k lines 0

theorem parseP2BFilterFileA_abort_rules_take (input : FileInput) (j : Junk) (k : Nat) :
    ∃ m, (parseP2BFilterFileA input j (some k)).rules =
      ((parseP2BFilterFileA input j none).rules).take m := by
  cases input with
  | missing => exact ⟨0, rfl⟩
  | unopenable => exact ⟨0, rfl⟩
  | content lines bytes => exact parseP2BBytes_abort_rules_take bytes j k

theorem dispatchParse_abort_rules_take (path : String) (input : FileInput) (j : Junk)
    (k : Nat) :
    ∃ m, (dispatchParse path input j (some k)).rules =
      ((dispatchParse path input j none).rules).take m := by
  unfold dispatchParse
  by_cases h1 : endsWithCI path ".p2p"
  · simpa [h1] using parseP2PFilterFileA_abort_rules_take input k
  · by_cases h2 : endsWithCI path ".p2b"
    · simpa [h1, h2] using parseP2BFilterFileA_abort_rules_take input j k
    · by_cases h3 : endsWithCI path ".dat"
      · simpa [h1, h2, h3] using parseDATFilterFileA_abort_rules_take input k
      · exact ⟨0, by simp [h1, h2, h3]⟩

theorem run_polls (path : String) (input : FileInput) (j : Junk)
    (abortAt : Option Nat) :
    (run path input j abortAt).polls = (dispatchParse path input j abortAt).polls := by
  unfold run
  by_cases h : pollAbort abortAt (dispatchParse path input j abortAt).polls <;> simp [h]

theorem run_rules (path : String) (input : FileInput) (j : Junk)
    (abortAt : Option Nat) :
    (run path input j abortAt).rules = (dispatchParse path input j abortAt).rules := by
  unfold run
  by_cases h : pollAbort abortAt (dispatchParse path input j abortAt).polls <;> simp [h]

/-- C7: if cancellation becomes visible by the run's final `m_abort`
check, no notification is delivered at all, and the rules present are
those accumulated up to a record boundary (a prefix of the rules the
uncancelled run of the same file produces — for the DAT parser,
cancellation at poll `k` yields exactly the rules of the first `k`
lines); a run that is never cancelled notifies the caller with the final
rule count. -/
theorem c7_cancellation :
    ∀ (path : String) (input : FileInput) (j : Junk) (k : Nat),
      ((run path input j (some k)).emit = none ↔
        k ≤ (run path input j (some k)).polls) ∧
      (∃ m, (run path input j (some k)).rules =
        ((run path input j none).rules).take m) ∧
      (run path input j none).emit = some ((run path input j none).rules).length ∧
      (∀ lines : List (List Char),
        (parseDATFilterFileA (.content lines []) (some k)).rules =
          (parseDATFilterFileA (.content (lines.take k) []) none).rules) := by
  intro path input j k
  refine ⟨?_, ?_, ?_, ?_⟩
  · rw [run_polls]
    unfold run
    by_cases h : pollAbort (some k) (dispatchParse path input j (some k)).polls
    · simp only [h, if_true]
      simpa [pollAbort] using h
    · simp only [h, if_false]
      constructor
      · intro he
        exact absurd he (by simp)
      · intro hle
        exact absurd (by simpa [pollAbort] using h) (by omega)
  · rw [run_rules, run_rules]
    exact dispatchParse_abort_rules_take path input j k
  · rw [run_rules]
    unfold run
    simp [pollAbort]
  · intro lines
    have h := datLoop_abort_take k lines 0
    simpa [parseDATFilterFileA] using h
